import Mathlib

/-!
Verification of the token scanner in `src/tokenizer.ts`.

The scanner is embedded shallowly: the input string is processed as its
list of characters, the `while (pos < source.length)` loop becomes the
recursive function `tokenizeAux`, and the body of one loop iteration is
the function `scanStep`.  The cursor `pos` is represented by the list of
characters not yet consumed; one iteration consumes the current
character `c` plus `dropCount` further characters of the remainder.
Line and column counters are natural numbers (they are only ever
incremented or reset to 1 in the source); the `column` stored in a
token is an integer, because the whitespace branch of the source
computes it as `column - (pos - start)`, which in JavaScript can be
zero or negative when the run contains a newline.
-/

/-- Token kinds, from the `TokenType` union in the source. -/
inductive TokenType where
  | keyword
  | identifier
  | number
  | string
  | operator
  | punctuation
  | whitespace
  | comment
deriving DecidableEq, Repr

/-- Tokens, from the `Token` interface: a kind, the raw text, and the
recorded line and column. -/
structure Token where
  type : TokenType
  value : String
  line : Nat
  column : Int
deriving DecidableEq, Repr

/-- The fixed keyword set `KEYWORDS` of the source. -/
def KEYWORDS : List String :=
  ["if", "else", "while", "for", "return", "function", "const", "let", "var"]

/-- The fixed operator set `OPERATORS` of the source, holding both the
one-character and the two-character operators. -/
def OPERATORS : List String :=
  ["+", "-", "*", "/", "=", "==", "!=", "<", ">", "<=", ">=", "&&", "||"]

/-- The fixed punctuation set `PUNCTUATION` of the source. -/
def PUNCTUATION : List String :=
  ["(", ")", "\x7b", "\x7d", "[", "]", ";", ",", "."]

/-- The JavaScript regular-expression class `\s` used by the whitespace
branch: tab (9) through carriage return (13), space (32), no-break
space (160), ogham space (5760), the range U+2000 to U+200A, line and
paragraph separators (8232, 8233), narrow no-break space (8239), medium
mathematical space (8287), ideographic space (12288) and the byte-order
mark (65279). -/
def isWsChar (c : Char) : Bool :=
  decide ((9 ≤ c.toNat ∧ c.toNat ≤ 13) ∨ c.toNat = 32 ∨ c.toNat = 160 ∨
    c.toNat = 5760 ∨ (8192 ≤ c.toNat ∧ c.toNat ≤ 8202) ∨ c.toNat = 8232 ∨
    c.toNat = 8233 ∨ c.toNat = 8239 ∨ c.toNat = 8287 ∨ c.toNat = 12288 ∨
    c.toNat = 65279)

/-- The regular-expression class `[0-9]` guarding the number branch:
codes 48 to 57. -/
def isDigitChar (c : Char) : Bool :=
  decide (48 ≤ c.toNat ∧ c.toNat ≤ 57)

/-- The regular-expression class `[a-zA-Z_]` guarding the identifier
branch: codes 97 to 122, 65 to 90, and 95. -/
def isIdentStartChar (c : Char) : Bool :=
  decide ((97 ≤ c.toNat ∧ c.toNat ≤ 122) ∨ (65 ≤ c.toNat ∧ c.toNat ≤ 90) ∨
    c.toNat = 95)

/-- The regular-expression class `[a-zA-Z0-9_]` used to continue an
identifier run. -/
def isIdentChar (c : Char) : Bool :=
  isIdentStartChar c || isDigitChar c

/-- The regular-expression class `[0-9.]` used to continue a number
run. -/
def isNumChar (c : Char) : Bool :=
  isDigitChar c || decide (c = '.')

/-- Line and column bookkeeping of the whitespace branch: every newline
increments `line` and resets `column` to 1, every other character
increments `column`. -/
def advancePos : Nat → Nat → List Char → Nat × Nat
  | line, column, [] => (line, column)
  | line, column, c :: cs =>
    if c = '\n' then advancePos (line + 1) 1 cs
    else advancePos line (column + 1) cs

/-- The string-scanning loop after the opening quote has been consumed.
It returns the characters consumed (body plus, when found, the closing
quote) together with the total number of `column` increments performed,
counting also the increments the source performs while stepping `pos`
past the end of the input on unterminated strings.  A backslash always
consumes the immediately following character as well. -/
def scanStringBody (quote : Char) : List Char → List Char × Nat
  | [] => ([], 1)
  | c :: rest =>
    if c = quote then ([c], 1)
    else if c = '\\' then
      match rest with
      | [] => ([c], 3)
      | d :: rest2 =>
        let r := scanStringBody quote rest2
        (c :: d :: r.1, 2 + r.2)
    else
      let r := scanStringBody quote rest
      (c :: r.1, 1 + r.2)

/-- Result of one iteration of the scan loop: the token pushed (if any),
how many characters beyond the current one were consumed, and the new
line and column counters. -/
structure StepResult where
  emitted : Option Token
  dropCount : Nat
  line : Nat
  column : Nat
deriving DecidableEq, Repr

/-- The tail of the loop body: the single-character operator check, the
punctuation check, and the final unknown-character skip.  Each of the
three advances the cursor and the column by exactly one. -/
def oneCharStep (c : Char) (line column : Nat) : StepResult :=
  if c.toString ∈ OPERATORS then
    ⟨some ⟨.operator, c.toString, line, (column : Int)⟩, 0, line, column + 1⟩
  else if c.toString ∈ PUNCTUATION then
    ⟨some ⟨.punctuation, c.toString, line, (column : Int)⟩, 0, line, column + 1⟩
  else
    ⟨none, 0, line, column + 1⟩

/-- One iteration of the scan loop of `tokenize`, dispatching on the
current character `c` (the remainder of the input being `rest`) in the
source's order: whitespace, comment, string, number,
identifier/keyword, two-character operator, then `oneCharStep`. -/
def scanStep (c : Char) (rest : List Char) (line column : Nat) : StepResult :=
  if isWsChar c then
    let run := c :: rest.takeWhile isWsChar
    let p := advancePos line column run
    ⟨some ⟨.whitespace, String.mk run, p.1, (p.2 : Int) - (run.length : Int)⟩,
      (rest.takeWhile isWsChar).length, p.1, p.2⟩
  else if c = '/' ∧ rest.head? = some '/' then
    let run := c :: rest.takeWhile (fun x => x != '\n')
    ⟨some ⟨.comment, String.mk run, line, (column : Int)⟩,
      (rest.takeWhile (fun x => x != '\n')).length, line, column + run.length⟩
  else if c = '"' ∨ c = '\'' then
    let r := scanStringBody c rest
    ⟨some ⟨.string, String.mk (c :: r.1), line, (column : Int)⟩,
      r.1.length, line, column + 1 + r.2⟩
  else if isDigitChar c then
    let run := c :: rest.takeWhile isNumChar
    ⟨some ⟨.number, String.mk run, line, (column : Int)⟩,
      (rest.takeWhile isNumChar).length, line, column + run.length⟩
  else if isIdentStartChar c then
    let run := c :: rest.takeWhile isIdentChar
    let v := String.mk run
    ⟨some ⟨if v ∈ KEYWORDS then TokenType.keyword else TokenType.identifier,
        v, line, (column : Int)⟩,
      (rest.takeWhile isIdentChar).length, line, column + run.length⟩
  else
    match rest with
    | d :: _ =>
      if String.mk [c, d] ∈ OPERATORS then
        ⟨some ⟨.operator, String.mk [c, d], line, (column : Int)⟩, 1, line, column + 2⟩
      else oneCharStep c line column
    | [] => oneCharStep c line column

/-- The scan loop: run `scanStep` on the current character, push the
emitted token if there is one, and continue on the unconsumed
remainder. -/
def tokenizeAux : List Char → Nat → Nat → List Token
  | [], _, _ => []
  | c :: rest, line, column =>
    let r := scanStep c rest line column
    let tail := tokenizeAux (rest.drop r.dropCount) r.line r.column
    match r.emitted with
    | some t => t :: tail
    | none => tail
termination_by l => l.length
decreasing_by
  simp only [List.length_drop, List.length_cons]
  omega

/-- The exported `tokenize` function: scan the whole input starting at
line 1, column 1. -/
def tokenize (source : String) : List Token :=
  tokenizeAux source.data 1 1

/-- The exported `stripComments` filter. -/
def stripComments (tokens : List Token) : List Token :=
  tokens.filter fun t => decide (t.type ≠ TokenType.comment)

/-- The exported `stripWhitespace` filter. -/
def stripWhitespace (tokens : List Token) : List Token :=
  tokens.filter fun t => decide (t.type ≠ TokenType.whitespace)

/-- The scan starting from this state never reaches the final
unknown-character skip: every character of the remaining input is
consumed as part of some recognized lexeme (a character such as `!`,
`&` or `|` counts as recognized exactly when the step at its position
forms a two-character operator with the next character).  This is the
spec's notion of an input containing no unrecognized characters. -/
def noUnrecognizedAux : List Char → Nat → Nat → Bool
  | [], _, _ => true
  | c :: rest, line, column =>
    let r := scanStep c rest line column
    r.emitted.isSome && noUnrecognizedAux (rest.drop r.dropCount) r.line r.column
termination_by l => l.length
decreasing_by
  simp only [List.length_drop, List.length_cons]
  omega

/-- The whole scan of `source` drops no character. -/
def noUnrecognized (source : String) : Bool :=
  noUnrecognizedAux source.data 1 1

/-- Concatenation of the `value` fields of a token list, as a string. -/
def joinValues (tokens : List Token) : String :=
  String.mk ((tokens.map fun t => t.value.data).flatten)

/-- The characters of the token pushed by a step, or `[]` when the step
pushed none. -/
def emittedData (r : StepResult) : List Char :=
  match r.emitted with
  | some t => t.value.data
  | none => []

/-! ## Basic unfolding lemmas for the scan loop -/

theorem tokenizeAux_nil (line column : Nat) : tokenizeAux [] line column = [] := by
  simp [tokenizeAux]

theorem tokenizeAux_cons (c : Char) (rest : List Char) (line column : Nat) :
    tokenizeAux (c :: rest) line column =
      (match (scanStep c rest line column).emitted with
        | some t => t ::
            tokenizeAux (rest.drop (scanStep c rest line column).dropCount)
              (scanStep c rest line column).line (scanStep c rest line column).column
        | none =>
            tokenizeAux (rest.drop (scanStep c rest line column).dropCount)
              (scanStep c rest line column).line (scanStep c rest line column).column) := by
  rw [tokenizeAux]

theorem data_mk (l : List Char) : (String.mk l).data = l := rfl

/-- Splitting a list after its maximal `p`-prefix reproduces the list. -/
theorem takeWhile_append_drop (p : Char → Bool) (l : List Char) :
    l.takeWhile p ++ l.drop (l.takeWhile p).length = l := by
  induction l with
  | nil => rfl
  | cons a l ih =>
    by_cases hp : p a
    · simp [List.takeWhile_cons_of_pos hp, ih]
    · simp [List.takeWhile_cons_of_neg hp]

/-- The characters consumed by the string-scanning loop are an initial
segment of its input. -/
theorem scanStringBody_cover (q : Char) : ∀ (n : Nat) (l : List Char), l.length ≤ n →
    (scanStringBody q l).1 ++ l.drop (scanStringBody q l).1.length = l := by
  intro n
  induction n with
  | zero =>
    intro l hl
    have hnil : l = [] := List.length_eq_zero.mp (Nat.le_zero.mp hl)
    subst hnil
    simp [scanStringBody]
  | succ n ih =>
    intro l hl
    match l with
    | [] => simp [scanStringBody]
    | [c] =>
      by_cases hq : c = q
      · simp [scanStringBody, hq]
      · by_cases hb : c = '\\'
        · subst hb
          simp [scanStringBody, hq]
        · simp [scanStringBody, hq, hb]
    | c :: d :: rest2 =>
      by_cases hq : c = q
      · simp [scanStringBody, hq]
      · by_cases hb : c = '\\'
        · have hr := ih rest2 (by simp at hl; omega)
          simp only [scanStringBody, if_neg hq, if_pos hb]
          simp only [List.length_cons, List.drop_succ_cons, List.cons_append,
            List.cons.injEq, true_and]
          exact hr
        · have hr := ih (d :: rest2) (by simp at hl ⊢; omega)
          simp only [scanStringBody, if_neg hq, if_neg hb]
          simp only [List.length_cons, List.drop_succ_cons, List.cons_append,
            List.cons.injEq, true_and]
          exact hr

/-- Whenever one scan step pushes a token, the token text is exactly
the characters the step consumed: no character is dropped and none is
consumed twice. -/
theorem scanStep_covers (c : Char) (rest : List Char) (line column : Nat)
    (h : (scanStep c rest line column).emitted ≠ none) :
    emittedData (scanStep c rest line column) ++
      rest.drop (scanStep c rest line column).dropCount = c :: rest := by
  by_cases h1 : isWsChar c
  · simp [scanStep, h1, emittedData, data_mk, takeWhile_append_drop]
  · by_cases h2 : c = '/' ∧ rest.head? = some '/'
    · obtain ⟨hc, hh⟩ := h2
      subst hc
      simp +decide [scanStep, hh, emittedData, data_mk, takeWhile_append_drop]
    · by_cases h3 : c = '"' ∨ c = '\''
      · simp only [scanStep, if_neg h1, if_neg h2, if_pos h3, emittedData, data_mk]
        simp only [List.cons_append, List.cons.injEq, true_and]
        exact scanStringBody_cover c rest.length rest le_rfl
      · by_cases h4 : isDigitChar c
        · simp [scanStep, h1, h2, h3, h4, emittedData, data_mk, takeWhile_append_drop]
        · by_cases h5 : isIdentStartChar c
          · simp [scanStep, h1, h2, h3, h4, h5, emittedData, data_mk,
              takeWhile_append_drop]
          · match rest with
            | [] =>
              by_cases h6 : c.toString ∈ OPERATORS
              · have hc : c.toString.data = [c] := rfl
                simp [scanStep, h1, h3, h4, h5, oneCharStep, h6, emittedData, hc]
              · by_cases h7 : c.toString ∈ PUNCTUATION
                · have hc : c.toString.data = [c] := rfl
                  simp [scanStep, h1, h3, h4, h5, oneCharStep, h6, h7, emittedData, hc]
                · exfalso
                  simp [scanStep, h1, h3, h4, h5, oneCharStep, h6, h7] at h
            | d :: rest2 =>
              have h2x : ¬(c = '/' ∧ d = '/') := by simpa using h2
              by_cases h6 : String.mk [c, d] ∈ OPERATORS
              · simp [scanStep, h1, h2x, h3, h4, h5, h6, emittedData, data_mk]
              · by_cases h7 : c.toString ∈ OPERATORS
                · have hc : c.toString.data = [c] := rfl
                  simp [scanStep, h1, h2x, h3, h4, h5, h6, oneCharStep, h7,
                    emittedData, hc]
                · by_cases h8 : c.toString ∈ PUNCTUATION
                  · have hc : c.toString.data = [c] := rfl
                    simp [scanStep, h1, h2x, h3, h4, h5, h6, oneCharStep, h7, h8,
                      emittedData, hc]
                  · exfalso
                    simp [scanStep, h1, h2x, h3, h4, h5, h6, oneCharStep, h7, h8] at h

/-- Unfolding of `noUnrecognizedAux` on empty input. -/
theorem noUnrecognizedAux_nil (line column : Nat) :
    noUnrecognizedAux [] line column = true := by
  rw [noUnrecognizedAux]

/-- Unfolding of `noUnrecognizedAux` on one scan step. -/
theorem noUnrecognizedAux_cons (c : Char) (rest : List Char) (line column : Nat) :
    noUnrecognizedAux (c :: rest) line column =
      ((scanStep c rest line column).emitted.isSome &&
        noUnrecognizedAux (rest.drop (scanStep c rest line column).dropCount)
          (scanStep c rest line column).line (scanStep c rest line column).column) := by
  rw [noUnrecognizedAux]

/-- Concatenating the texts of the tokens produced from a scan state
that drops no character reproduces the remaining input. -/
theorem tokenizeAux_reconstructs (n : Nat) : ∀ (l : List Char), l.length ≤ n →
    ∀ (line column : Nat), noUnrecognizedAux l line column = true →
    ((tokenizeAux l line column).map fun t => t.value.data).flatten = l := by
  induction n with
  | zero =>
    intro l hl line column _
    have hnil : l = [] := List.length_eq_zero.mp (Nat.le_zero.mp hl)
    subst hnil
    simp [tokenizeAux_nil]
  | succ n ih =>
    intro l hl line column hnd
    match l with
    | [] => simp [tokenizeAux_nil]
    | c :: rest =>
      rw [noUnrecognizedAux_cons, Bool.and_eq_true] at hnd
      obtain ⟨hsome, hrec⟩ := hnd
      have hne : (scanStep c rest line column).emitted ≠ none := by
        intro hx
        rw [hx] at hsome
        exact Bool.noConfusion hsome
      have hcov := scanStep_covers c rest line column hne
      rw [tokenizeAux_cons]
      cases hemit : (scanStep c rest line column).emitted with
      | none => exact absurd hemit hne
      | some t =>
        simp only [hemit, List.map_cons, List.flatten_cons]
        simp only [emittedData, hemit] at hcov
        have hlen : (rest.drop (scanStep c rest line column).dropCount).length ≤ n := by
          simp only [List.length_drop]
          simp only [List.length_cons] at hl
          omega
        rw [ih _ hlen _ _ hrec]
        exact hcov

/-- C1: for every input string that contains no unrecognized characters
— the scan never reaches the unknown-character branch, every character
being consumed as part of some recognized lexeme, two-character
operators such as `!=`, `&&` and `||` included — concatenating the
`value` of every token of `tokenize`, in order, reproduces the input
exactly (whitespace and comments included), and `tokenize ""` yields no
tokens. -/
theorem C1_lossless :
    (∀ s : String, noUnrecognized s = true → joinValues (tokenize s) = s) ∧
    tokenize "" = [] := by
  constructor
  · intro s h
    have hr := tokenizeAux_reconstructs s.data.length s.data le_rfl 1 1 h
    simp only [joinValues, tokenize]
    rw [hr]
  · have h : "".data = [] := rfl
    simp [tokenize, h, tokenizeAux_nil]

/-- Witness for C1 at a concrete input containing all three
two-character operators built from `!`, `&` and `|`. -/
theorem C1_lossless_witness :
    noUnrecognized "a && b != c || d" = true ∧
    joinValues (tokenize "a && b != c || d") = "a && b != c || d" := by
  have hd : "a && b != c || d".data =
      ['a', ' ', '&', '&', ' ', 'b', ' ', '!', '=', ' ', 'c', ' ', '|', '|',
       ' ', 'd'] := rfl
  have h : noUnrecognized "a && b != c || d" = true := by
    simp only [noUnrecognized, hd]
    simp +decide [noUnrecognizedAux_cons, noUnrecognizedAux_nil, scanStep,
      oneCharStep, advancePos]
  exact ⟨h, C1_lossless.1 "a && b != c || d" h⟩

/-- C3: the two filters are pure projections: each is idempotent, they
commute, and the empty token list maps to the empty token list. -/
theorem C3_filters :
    (∀ t : List Token, stripComments (stripComments t) = stripComments t) ∧
    (∀ t : List Token, stripWhitespace (stripWhitespace t) = stripWhitespace t) ∧
    (∀ t : List Token,
      stripWhitespace (stripComments t) = stripComments (stripWhitespace t)) ∧
    stripComments ([] : List Token) = [] ∧ stripWhitespace ([] : List Token) = [] := by
  refine ⟨?_, ?_, ?_, rfl, rfl⟩ <;> intro t <;>
    simp [stripComments, stripWhitespace, List.filter_filter, Bool.and_comm]

/-- Every call of the loop body consumes at least the current character,
so the remaining input shrinks strictly on every iteration. -/
theorem scanStep_strict_progress (c : Char) (rest : List Char) (line column : Nat) :
    (rest.drop (scanStep c rest line column).dropCount).length < (c :: rest).length := by
  simp only [List.length_drop, List.length_cons]
  omega

/-- The scanner emits at most one token per consumed character. -/
theorem tokenizeAux_length_le (n : Nat) : ∀ (l : List Char), l.length ≤ n →
    ∀ (line column : Nat), (tokenizeAux l line column).length ≤ l.length := by
  induction n with
  | zero =>
    intro l hl line column
    have hnil : l = [] := List.length_eq_zero.mp (Nat.le_zero.mp hl)
    subst hnil
    simp [tokenizeAux_nil]
  | succ n ih =>
    intro l hl line column
    match l with
    | [] => simp [tokenizeAux_nil]
    | c :: rest =>
      rw [tokenizeAux_cons]
      have hlen : (rest.drop (scanStep c rest line column).dropCount).length ≤ n := by
        simp only [List.length_drop]
        simp only [List.length_cons] at hl
        omega
      have htail := ih _ hlen (scanStep c rest line column).line
        (scanStep c rest line column).column
      have hdl : (rest.drop (scanStep c rest line column).dropCount).length ≤ rest.length := by
        simp only [List.length_drop]
        omega
      cases hemit : (scanStep c rest line column).emitted with
      | none =>
        simp only [List.length_cons]
        omega
      | some t =>
        simp only [List.length_cons]
        omega

/-- C8: the scan terminates on every input because every iteration of the
loop strictly shrinks the remaining input (the unrecognized-character
branch included, since `scanStep` covers every branch), the pass ends
when the input is exhausted, and the number of tokens produced is at
most the length of the input. -/
theorem C8_termination :
    (∀ (c : Char) (rest : List Char) (line column : Nat),
      (rest.drop (scanStep c rest line column).dropCount).length < (c :: rest).length) ∧
    (∀ line column : Nat, tokenizeAux [] line column = []) ∧
    (∀ s : String, (tokenize s).length ≤ s.length) := by
  refine ⟨scanStep_strict_progress, tokenizeAux_nil, ?_⟩
  intro s
  exact tokenizeAux_length_le s.data.length s.data le_rfl 1 1

/-- C2 (failing evaluation): the whitespace branch reports the post-run
line and the subtraction-derived column.  For the input consisting of a
single newline the emitted whitespace token carries line 2 and
column 0, not line 1 and column 1 (the position of the run's first
character); for two newlines the column is even negative. -/
theorem C2_whitespace_position_bug :
    tokenize "\n" = [⟨TokenType.whitespace, "\n", 2, 0⟩] ∧
    tokenize "\n\n" = [⟨TokenType.whitespace, "\n\n", 3, -1⟩] := by
  constructor
  · have h : "\n".data = ['\n'] := rfl
    simp only [tokenize, h]
    simp +decide [tokenizeAux_cons, tokenizeAux_nil, scanStep, advancePos]
  · have h : "\n\n".data = ['\n', '\n'] := rfl
    simp only [tokenize, h]
    simp +decide [tokenizeAux_cons, tokenizeAux_nil, scanStep, advancePos]

/-! ## Character-class facts used to drive the scanner through a chosen
branch on a free character -/

theorem identStart_not_ws {c : Char} (h : isIdentStartChar c = true) :
    isWsChar c = false := by
  simp only [isIdentStartChar, decide_eq_true_eq] at h
  simp only [isWsChar, decide_eq_false_iff_not]
  omega

theorem identStart_not_digit {c : Char} (h : isIdentStartChar c = true) :
    isDigitChar c = false := by
  simp only [isIdentStartChar, decide_eq_true_eq] at h
  simp only [isDigitChar, decide_eq_false_iff_not]
  omega

theorem identStart_ne_slash {c : Char} (h : isIdentStartChar c = true) : c ≠ '/' := by
  intro hc
  subst hc
  exact absurd h (by decide)

theorem identStart_not_quote {c : Char} (h : isIdentStartChar c = true) :
    ¬(c = '"' ∨ c = '\'') := by
  rintro (hc | hc) <;> subst hc <;> exact absurd h (by decide)

/-- The identifier branch of the scanner on a free identifier-start
character: the guards of the four earlier branches are all false. -/
theorem scanStep_ident (c : Char) (rest : List Char) (line column : Nat)
    (h : isIdentStartChar c = true) :
    scanStep c rest line column =
      ⟨some ⟨if String.mk (c :: rest.takeWhile isIdentChar) ∈ KEYWORDS then
          TokenType.keyword else TokenType.identifier,
        String.mk (c :: rest.takeWhile isIdentChar), line, (column : Int)⟩,
        (rest.takeWhile isIdentChar).length, line,
        column + (c :: rest.takeWhile isIdentChar).length⟩ := by
  have h1 := identStart_not_ws h
  have h2 := identStart_ne_slash h
  have h3 := identStart_not_quote h
  have h4 := identStart_not_digit h
  simp [scanStep, h1, h2, h3, h4, h]

/-- Splitting the maximal `p`-prefix of a list that is `p`-true up to an
explicit stopping element. -/
theorem takeWhile_all_append {p : Char → Bool} (l1 l2 : List Char) (x : Char)
    (h : ∀ c ∈ l1, p c = true) (hx : p x = false) :
    (l1 ++ x :: l2).takeWhile p = l1 := by
  induction l1 with
  | nil => simp [List.takeWhile_cons, hx]
  | cons a l1 ih =>
    have ha : p a = true := h a (by simp)
    simp only [List.cons_append, List.takeWhile_cons_of_pos ha, List.cons.injEq, true_and]
    exact ih fun c hc => h c (by simp [hc])

/-- The operator set, with every member written as its character list. -/
theorem OPERATORS_chars : OPERATORS =
    [String.mk ['+'], String.mk ['-'], String.mk ['*'], String.mk ['/'],
     String.mk ['='], String.mk ['=', '='], String.mk ['!', '='],
     String.mk ['<'], String.mk ['>'], String.mk ['<', '='],
     String.mk ['>', '='], String.mk ['&', '&'], String.mk ['|', '|']] := rfl

/-- No two-character string starting with `/` is an operator, so a `/`
that does not begin a comment always falls to the one-character
check. -/
theorem slash_pair_not_op (d : Char) : String.mk ['/', d] ∉ OPERATORS := by
  intro h
  simp only [OPERATORS, List.mem_cons, List.not_mem_nil, or_false, String.ext_iff] at h
  simp at h

/-- The only two-character operator starting with `!` is `!=`. -/
theorem bang_pair_not_op (d : Char) (hd : d ≠ '=') : String.mk ['!', d] ∉ OPERATORS := by
  intro h
  simp only [OPERATORS, List.mem_cons, List.not_mem_nil, or_false, String.ext_iff] at h
  simp at h
  exact hd h

/-- One-step unfolding of the string-scanning loop. -/
theorem scanStringBody_cons (q c : Char) (rest : List Char) :
    scanStringBody q (c :: rest) =
      if c = q then ([c], 1)
      else if c = '\\' then
        (match rest with
          | [] => ([c], 3)
          | d :: rest2 =>
            (c :: d :: (scanStringBody q rest2).1, 2 + (scanStringBody q rest2).2))
      else (c :: (scanStringBody q rest).1, 1 + (scanStringBody q rest).2) := by
  cases rest <;> rfl

/-- A string body free of the delimiter and of backslashes, followed by
the closing delimiter: the loop consumes body and delimiter and performs
one column increment per consumed character. -/
theorem scanStringBody_closed (q : Char) : ∀ (pre suf : List Char),
    (∀ c ∈ pre, c ≠ q ∧ c ≠ '\\') →
    scanStringBody q (pre ++ q :: suf) = (pre ++ [q], pre.length + 1) := by
  intro pre
  induction pre with
  | nil => intro suf _; simp [scanStringBody_cons]
  | cons a pre ih =>
    intro suf h
    have ha := h a (by simp)
    have hr := ih suf fun c hc => h c (by simp [hc])
    simp only [List.cons_append, scanStringBody_cons, if_neg ha.1, if_neg ha.2, hr]
    simp only [List.length_cons, Prod.mk.injEq, List.cons.injEq, true_and]
    omega

/-- When the delimiter never occurs, the loop consumes the whole rest of
the input. -/
theorem scanStringBody_no_close (q : Char) : ∀ (n : Nat) (l : List Char), l.length ≤ n →
    q ∉ l → (scanStringBody q l).1 = l := by
  intro n
  induction n with
  | zero =>
    intro l hl _
    have hnil : l = [] := List.length_eq_zero.mp (Nat.le_zero.mp hl)
    subst hnil
    rfl
  | succ n ih =>
    intro l hl hq
    match l with
    | [] => rfl
    | c :: rest =>
      have hc : ¬c = q := fun hcq => hq (hcq ▸ List.mem_cons_self c rest)
      have hrest : q ∉ rest := fun hm => hq (List.mem_cons_of_mem c hm)
      by_cases hb : c = '\\'
      · subst hb
        match rest with
        | [] => simp [scanStringBody_cons, hc]
        | d :: rest2 =>
          have hr := ih rest2 (by simp at hl; omega)
            fun hm => hrest (List.mem_cons_of_mem d hm)
          simp [scanStringBody_cons, hc, hr]
      · have hr := ih rest (by simp at hl; omega) hrest
        simp [scanStringBody_cons, hc, hb, hr]

/-- An escaped delimiter inside the body does not close the string: the
backslash consumes the delimiter after it and the loop continues to the
real closing delimiter. -/
theorem scanStringBody_escaped (q : Char) (hq : ¬q = '\\') : ∀ (pre post : List Char),
    (∀ c ∈ pre, c ≠ q ∧ c ≠ '\\') → (∀ c ∈ post, c ≠ q ∧ c ≠ '\\') →
    (scanStringBody q (pre ++ '\\' :: q :: (post ++ [q]))).1 =
      pre ++ '\\' :: q :: (post ++ [q]) := by
  intro pre
  induction pre with
  | nil =>
    intro post _ hpost
    have hclosed := scanStringBody_closed q post [] hpost
    have hbq : ¬('\\' : Char) = q := fun h => hq h.symm
    simp only [List.nil_append]
    rw [scanStringBody_cons, if_neg hbq, if_pos rfl]
    simp [hclosed]
  | cons a pre ih =>
    intro post h hpost
    have ha := h a (by simp)
    have hr := ih post (fun c hc => h c (by simp [hc])) hpost
    simp only [List.cons_append, scanStringBody_cons, if_neg ha.1, if_neg ha.2, hr]

/-- C5: a maximal identifier run (letters, digits, underscores, starting
with a letter or underscore) becomes a single Keyword token exactly when
its text is in the fixed keyword set, and a single Identifier token
otherwise; `"iffy"` gives one Identifier token, `"if"` one Keyword
token. -/
theorem C5_keywords :
    (∀ (c : Char) (cs : List Char), isIdentStartChar c = true →
      (∀ d ∈ cs, isIdentChar d = true) →
      tokenize (String.mk (c :: cs)) =
        [⟨if String.mk (c :: cs) ∈ KEYWORDS then TokenType.keyword
            else TokenType.identifier, String.mk (c :: cs), 1, 1⟩]) ∧
    tokenize "iffy" = [⟨TokenType.identifier, "iffy", 1, 1⟩] ∧
    tokenize "if" = [⟨TokenType.keyword, "if", 1, 1⟩] := by
  refine ⟨?_, ?_, ?_⟩
  · intro c cs hc hcs
    have ht : cs.takeWhile isIdentChar = cs := List.takeWhile_eq_self_iff.mpr hcs
    show tokenizeAux (String.mk (c :: cs)).data 1 1 = _
    rw [data_mk, tokenizeAux_cons, scanStep_ident c cs 1 1 hc]
    simp [ht, tokenizeAux_nil]
  · have h : "iffy".data = ['i', 'f', 'f', 'y'] := rfl
    simp only [tokenize, h]
    simp +decide [tokenizeAux_cons, tokenizeAux_nil, scanStep]
  · have h : "if".data = ['i', 'f'] := rfl
    simp only [tokenize, h]
    simp +decide [tokenizeAux_cons, tokenizeAux_nil, scanStep]

/-- Witness for C5 at the identifier `"qz"` (not a keyword). -/
theorem C5_keywords_witness :
    tokenize (String.mk ('q' :: ['z'])) =
      [⟨if String.mk ('q' :: ['z']) ∈ KEYWORDS then TokenType.keyword
          else TokenType.identifier, String.mk ('q' :: ['z']), 1, 1⟩] :=
  C5_keywords.1 'q' ['z'] (by decide) (by decide)

/-- C6: whenever the current and next characters form one of the six
two-character operators, the scanner emits a single length-2 Operator
token and advances past both characters; `"a<=b"` scans to Identifier,
Operator `<=`, Identifier, never `<` then `=`. -/
theorem C6_two_char_ops :
    (∀ (c d : Char) (rest : List Char) (line column : Nat),
      String.mk [c, d] ∈ ["==", "!=", "<=", ">=", "&&", "||"] →
      tokenizeAux (c :: d :: rest) line column =
        ⟨TokenType.operator, String.mk [c, d], line, (column : Int)⟩ ::
          tokenizeAux rest line (column + 2)) ∧
    tokenize "a<=b" = [⟨TokenType.identifier, "a", 1, 1⟩,
      ⟨TokenType.operator, "<=", 1, 2⟩, ⟨TokenType.identifier, "b", 1, 4⟩] := by
  constructor
  · intro c d rest line column h
    simp only [List.mem_cons, List.not_mem_nil, or_false, String.ext_iff, data_mk] at h
    simp at h
    rcases h with ⟨rfl, rfl⟩ | ⟨rfl, rfl⟩ | ⟨rfl, rfl⟩ | ⟨rfl, rfl⟩ | ⟨rfl, rfl⟩ |
      ⟨rfl, rfl⟩ <;>
      · rw [tokenizeAux_cons]
        simp +decide [scanStep]
  · have h : "a<=b".data = ['a', '<', '=', 'b'] := rfl
    simp only [tokenize, h]
    simp +decide [tokenizeAux_cons, tokenizeAux_nil, scanStep, oneCharStep]

/-- Witness for C6 at `==` followed by empty input. -/
theorem C6_two_char_ops_witness :
    tokenizeAux ['=', '='] 1 1 =
      ⟨TokenType.operator, String.mk ['=', '='], 1, (1 : Int)⟩ ::
        tokenizeAux [] 1 (1 + 2) :=
  C6_two_char_ops.1 '=' '=' [] 1 1 (by decide)

/-- C7: two consecutive slashes start a comment running to the end of
the line (the newline is not part of the comment) or to the end of the
input, emitted as exactly one Comment token; since this check precedes
the operator checks, a single slash not followed by another slash is
emitted as a length-1 Operator token. -/
theorem C7_comments :
    (∀ (body rest : List Char), (∀ c ∈ body, c ≠ '\n') → ∀ (line column : Nat),
      tokenizeAux ('/' :: '/' :: (body ++ '\n' :: rest)) line column =
        ⟨TokenType.comment, String.mk ('/' :: '/' :: body), line, (column : Int)⟩ ::
          tokenizeAux ('\n' :: rest) line (column + (body.length + 2))) ∧
    (∀ body : List Char, (∀ c ∈ body, c ≠ '\n') →
      tokenize (String.mk ('/' :: '/' :: body)) =
        [⟨TokenType.comment, String.mk ('/' :: '/' :: body), 1, 1⟩]) ∧
    (∀ (d : Char) (rest : List Char) (line column : Nat), d ≠ '/' →
      tokenizeAux ('/' :: d :: rest) line column =
        ⟨TokenType.operator, "/", line, (column : Int)⟩ ::
          tokenizeAux (d :: rest) line (column + 1)) ∧
    (∀ line column : Nat, tokenizeAux ['/'] line column =
      [⟨TokenType.operator, "/", line, (column : Int)⟩]) := by
  refine ⟨?_, ?_, ?_, ?_⟩
  · intro body rest hb line column
    have hp : ∀ c ∈ body, (c != '\n') = true := by
      intro c hc
      simpa using hb c hc
    have htw : (body ++ '\n' :: rest).takeWhile (fun x => x != '\n') = body :=
      takeWhile_all_append body rest '\n' hp (by simp)
    have hdw : (body ++ '\n' :: rest).drop body.length = '\n' :: rest :=
      List.drop_left body ('\n' :: rest)
    rw [tokenizeAux_cons]
    simp +decide [scanStep, htw, hdw, Nat.add_assoc]
  · intro body hb
    have hp : ∀ c ∈ body, (c != '\n') = true := by
      intro c hc
      simpa using hb c hc
    have htw : body.takeWhile (fun x => x != '\n') = body :=
      List.takeWhile_eq_self_iff.mpr hp
    show tokenizeAux (String.mk ('/' :: '/' :: body)).data 1 1 = _
    rw [data_mk, tokenizeAux_cons]
    simp +decide [scanStep, htw, tokenizeAux_nil]
  · intro d rest line column hd
    have h2 : ¬(('/' : Char) = '/' ∧ (d :: rest).head? = some '/') := by
      simp [hd]
    rw [tokenizeAux_cons]
    simp +decide [scanStep, h2, hd, slash_pair_not_op, oneCharStep]
  · intro line column
    rw [tokenizeAux_cons]
    simp +decide [scanStep, oneCharStep, tokenizeAux_nil]

/-- Witness for C7: a comment body `"x"` closed by a newline, the
end-of-input comment `"//"`, and a slash before a non-slash. -/
theorem C7_comments_witness :
    (tokenizeAux ('/' :: '/' :: (['x'] ++ '\n' :: [])) 1 1 =
      ⟨TokenType.comment, String.mk ('/' :: '/' :: ['x']), 1, (1 : Int)⟩ ::
        tokenizeAux ('\n' :: []) 1 (1 + (List.length ['x'] + 2))) ∧
    (tokenize (String.mk ('/' :: '/' :: ['x'])) =
      [⟨TokenType.comment, String.mk ('/' :: '/' :: ['x']), 1, 1⟩]) ∧
    (tokenizeAux ('/' :: 'a' :: []) 1 1 =
      ⟨TokenType.operator, "/", 1, (1 : Int)⟩ :: tokenizeAux ('a' :: []) 1 (1 + 1)) :=
  ⟨C7_comments.1 ['x'] [] (by decide) 1 1, C7_comments.2.1 ['x'] (by decide),
    C7_comments.2.2.1 'a' [] 1 1 (by decide)⟩

/-- C10: a `!` not immediately followed by `=` matches no branch: the
step emits no token and advances cursor and column by one; in
particular `tokenize "!"` is empty. -/
theorem C10_bang_skipped :
    (∀ (d : Char) (rest : List Char) (line column : Nat), d ≠ '=' →
      scanStep '!' (d :: rest) line column = ⟨none, 0, line, column + 1⟩) ∧
    (∀ line column : Nat, scanStep '!' [] line column = ⟨none, 0, line, column + 1⟩) ∧
    tokenize "!" = [] := by
  refine ⟨?_, ?_, ?_⟩
  · intro d rest line column hd
    have hop := bang_pair_not_op d hd
    simp +decide [scanStep, hop, oneCharStep]
  · intro line column
    simp +decide [scanStep, oneCharStep]
  · have h : "!".data = ['!'] := rfl
    simp only [tokenize, h]
    rw [tokenizeAux_cons]
    simp +decide [scanStep, oneCharStep, tokenizeAux_nil]

/-- Witness for C10 with `!` before `a`. -/
theorem C10_bang_skipped_witness :
    scanStep '!' ('a' :: []) 1 1 = ⟨none, 0, 1, 1 + 1⟩ :=
  C10_bang_skipped.1 'a' [] 1 1 (by decide)

/-- C9: the string branch never touches the line counter, even when the
consumed body spans a newline, and for a well-formed string it advances
the column once per consumed character; hence tokens after a string
containing a raw newline keep the line count of the newlines consumed
outside strings (none, in the example). -/
theorem C9_string_line_bookkeeping :
    (∀ (q : Char) (rest : List Char) (line column : Nat), q = '"' ∨ q = '\'' →
      (scanStep q rest line column).line = line) ∧
    (∀ (q : Char) (pre suf : List Char) (line column : Nat), (q = '"' ∨ q = '\'') →
      (∀ c ∈ pre, c ≠ q ∧ c ≠ '\\') →
      (scanStep q (pre ++ q :: suf) line column).column = column + (pre.length + 2)) ∧
    tokenize "\"a\nb\" x" = [⟨TokenType.string, "\"a\nb\"", 1, 1⟩,
      ⟨TokenType.whitespace, " ", 1, 6⟩, ⟨TokenType.identifier, "x", 1, 7⟩] := by
  refine ⟨?_, ?_, ?_⟩
  · intro q rest line column hq
    rcases hq with rfl | rfl <;> simp +decide [scanStep]
  · intro q pre suf line column hq hpre
    have hs := scanStringBody_closed q pre suf hpre
    rcases hq with rfl | rfl <;>
      · simp +decide [scanStep, hs]
        omega
  · have h : "\"a\nb\" x".data = ['"', 'a', '\n', 'b', '"', ' ', 'x'] := rfl
    simp only [tokenize, h]
    simp +decide [tokenizeAux_cons, tokenizeAux_nil, scanStep, oneCharStep,
      scanStringBody, advancePos]

/-- Witness for C9: a double-quoted string with a newline in its body
leaves the line counter at 3, and the column advances by the length of
the two-character body plus both delimiters. -/
theorem C9_string_line_bookkeeping_witness :
    (scanStep '"' ['a', '\n'] 3 5).line = 3 ∧
    (scanStep '"' (['a', '\n'] ++ '"' :: []) 3 5).column = 5 + (List.length ['a', '\n'] + 2) :=
  ⟨C9_string_line_bookkeeping.1 '"' ['a', '\n'] 3 5 (Or.inl rfl),
    C9_string_line_bookkeeping.2.1 '"' ['a', '\n'] [] 3 5 (Or.inl rfl) (by decide)⟩

/-- C4: on a quote character the scanner emits exactly one String token
whose text carries both delimiters verbatim; a backslash consumes the
following character unconditionally, so an escaped delimiter does not
close the string; and when no closing delimiter exists the token simply
extends to the end of the input, with no error. -/
theorem C4_string_literals :
    ∀ q : Char, q = '"' ∨ q = '\'' →
    (∀ body : List Char, (∀ c ∈ body, c ≠ q ∧ c ≠ '\\') →
      tokenize (String.mk (q :: (body ++ [q]))) =
        [⟨TokenType.string, String.mk (q :: (body ++ [q])), 1, 1⟩]) ∧
    (∀ pre post : List Char, (∀ c ∈ pre, c ≠ q ∧ c ≠ '\\') →
      (∀ c ∈ post, c ≠ q ∧ c ≠ '\\') →
      tokenize (String.mk (q :: (pre ++ '\\' :: q :: (post ++ [q])))) =
        [⟨TokenType.string, String.mk (q :: (pre ++ '\\' :: q :: (post ++ [q]))), 1, 1⟩]) ∧
    (∀ body : List Char, q ∉ body →
      tokenize (String.mk (q :: body)) =
        [⟨TokenType.string, String.mk (q :: body), 1, 1⟩]) := by
  intro q hq
  refine ⟨?_, ?_, ?_⟩
  · intro body hbody
    have hs := scanStringBody_closed q body [] hbody
    show tokenizeAux (String.mk (q :: (body ++ [q]))).data 1 1 = _
    rw [data_mk, tokenizeAux_cons]
    rcases hq with rfl | rfl <;>
      simp +decide [scanStep, hs, tokenizeAux_nil]
  · intro pre post hpre hpost
    have hqb : ¬q = '\\' := by rcases hq with rfl | rfl <;> decide
    have hs := scanStringBody_escaped q hqb pre post hpre hpost
    show tokenizeAux (String.mk (q :: (pre ++ '\\' :: q :: (post ++ [q])))).data 1 1 = _
    rw [data_mk, tokenizeAux_cons]
    rcases hq with rfl | rfl <;>
      simp +decide [scanStep, hs, tokenizeAux_nil]
  · intro body hnotin
    have hs := scanStringBody_no_close q body.length body le_rfl hnotin
    show tokenizeAux (String.mk (q :: body)).data 1 1 = _
    rw [data_mk, tokenizeAux_cons]
    rcases hq with rfl | rfl <;>
      simp +decide [scanStep, hs, tokenizeAux_nil]

/-- Witness for C4: a closed one-character double-quoted string, a
string with an escaped delimiter in the middle, and an unterminated
string. -/
theorem C4_string_literals_witness :
    (tokenize (String.mk ('"' :: (['h'] ++ ['"']))) =
      [⟨TokenType.string, String.mk ('"' :: (['h'] ++ ['"'])), 1, 1⟩]) ∧
    (tokenize (String.mk ('"' :: (['h'] ++ '\\' :: '"' :: (['i'] ++ ['"'])))) =
      [⟨TokenType.string, String.mk ('"' :: (['h'] ++ '\\' :: '"' :: (['i'] ++ ['"']))),
        1, 1⟩]) ∧
    (tokenize (String.mk ('"' :: ['h', 'i'])) =
      [⟨TokenType.string, String.mk ('"' :: ['h', 'i']), 1, 1⟩]) :=
  ⟨(C4_string_literals '"' (Or.inl rfl)).1 ['h'] (by decide),
    (C4_string_literals '"' (Or.inl rfl)).2.1 ['h'] ['i'] (by decide) (by decide),
    (C4_string_literals '"' (Or.inl rfl)).2.2 ['h', 'i'] (by decide)⟩
